import Mathlib

/-!
Shallow embedding of the core pipeline of `heated_rivarly_tracker.py`:
title classification (episode-code extraction and trailer detection),
post selection, the HTTP retry/backoff fetcher, and the history-log
series aggregator used for plotting.

Conventions of the embedding:
* Python strings are Lean `String`s; character classes of the regular
  expressions (`\d`, `\s`, `\w`) and case folding are modelled at the
  ASCII level, which is exact for the pattern literals involved.
* Python's stable `sorted`/`list.sort` is modelled by a stable insertion
  sort `stableSort lt`, where `lt a b = true` means `a` must come
  strictly before `b`; ties keep input order, exactly as in CPython.
* Machine integers do not overflow in CPython, so counts and scores are
  `Int`/`Nat` with no truncation.
* `datetime.fromisoformat` is Python standard library code, external to
  the repository; the aggregator is therefore parametric in a time
  parser `parse : String → Option T` over a linearly ordered `T`, and
  concrete instances are used for concrete inputs.
-/

/-- Models Python `str.lower()` (`heated_rivarly_tracker.py`, line 91);
exact on ASCII, and identity on the non-ASCII characters appearing here. -/
def pyLower (s : String) : String := String.mk (s.data.map Char.toLower)

/-- Character-list test: the first list is a leading segment of the second. -/
def listStartsWith : List Char → List Char → Bool
  | [], _ => true
  | _ :: _, [] => false
  | c :: cs, d :: ds => c == d && listStartsWith cs ds

/-- Character-list substring test, scanning left to right. -/
def listHasSub (needle : List Char) : List Char → Bool
  | [] => needle.isEmpty
  | c :: t => listStartsWith needle (c :: t) || listHasSub needle t

/-- Models Python's `needle in hay` on strings. -/
def pyIn (needle hay : String) : Bool := listHasSub needle.data hay.data

/-- Translation of `is_official_trailer` (lines 90–93): lowercase the
title, then require the three fixed substrings `"trailer"`, `"official"`
and `"heated rivalry"`. -/
def is_official_trailer (title : String) : Bool :=
  let t := pyLower title
  pyIn "trailer" t && pyIn "official" t && pyIn "heated rivalry" t

/-- A case-insensitive substring test, as the specification phrases it:
both the title and the sought phrase are case-folded before the test. -/
def containsCI (title pat : String) : Bool := pyIn (pyLower pat) (pyLower title)

/-- ASCII model of the regex class `\w` (letters, digits, underscore). -/
def isWordCh (c : Char) : Bool := c.isAlphanum || c == '_'

/-- ASCII model of the regex class `\s`. -/
def isPySpace (c : Char) : Bool :=
  c == ' ' || c == '\t' || c == '\n' || c == '\x0b' || c == '\x0c' || c == '\r'

/-- Word-boundary (`\b`) test between a previous character (none at the
start of the string) and the remaining input. -/
def boundary (prev : Option Char) (rest : List Char) : Bool :=
  (match prev with | none => false | some c => isWordCh c)
    != (match rest with | [] => false | c :: _ => isWordCh c)

/-- Word-boundary test right after a word character, looking only ahead. -/
def endBoundary : List Char → Bool
  | [] => true
  | c :: _ => !(isWordCh c)

/-- Maximal munch for `\s*` (safe here: every continuation of `\s*` in
the two patterns starts with a non-space character). -/
def skipSpaces : List Char → List Char
  | [] => []
  | c :: t => if isPySpace c then skipSpaces t else c :: t

/-- Numeric value of a decimal digit character. -/
def digitVal (c : Char) : Nat := c.toNat - '0'.toNat

/-- Matches `(\d{1,2})\b` greedily: two digits if possible, else one,
each followed by a word boundary; returns the numeric value. -/
def epDigits : List Char → Option Nat
  | [] => none
  | [c1] => if c1.isDigit then some (digitVal c1) else none
  | c1 :: c2 :: t =>
    if c1.isDigit then
      if c2.isDigit && endBoundary t then some (digitVal c1 * 10 + digitVal c2)
      else if !c2.isDigit && endBoundary (c2 :: t) then some (digitVal c1)
      else none
    else none

/-- Continuation of pattern 1 after the season digits:
`\s*[xX]\s*(\d{1,2})\b`. -/
def p1Cont (rest : List Char) : Option Nat :=
  match skipSpaces rest with
  | c :: t => if c == 'x' || c == 'X' then epDigits (skipSpaces t) else none
  | [] => none

/-- Anchored match of pattern 1, `\b(\d{1,2})\s*[xX]\s*(\d{1,2})\b`
(line 76), at the current position; returns (season, episode). -/
def matchP1Here (prev : Option Char) (rest : List Char) : Option (Nat × Nat) :=
  if !boundary prev rest then none
  else
    match rest with
    | c1 :: t1 =>
      if !c1.isDigit then none
      else
        let two : Option (Nat × Nat) :=
          match t1 with
          | c2 :: t2 =>
            if c2.isDigit then (p1Cont t2).map (fun e => (digitVal c1 * 10 + digitVal c2, e))
            else none
          | [] => none
        match two with
        | some r => some r
        | none => (p1Cont t1).map (fun e => (digitVal c1, e))
    | [] => none

/-- Continuation of pattern 2 after the season digits:
`\s*[Ee](\d{1,2})\b` — the episode digits follow the `[Ee]`
immediately, with no whitespace allowed between them. -/
def p2Cont (rest : List Char) : Option Nat :=
  match skipSpaces rest with
  | c :: t => if c == 'E' || c == 'e' then epDigits t else none
  | [] => none

/-- Anchored match of pattern 2, `\b[Ss](\d{1,2})\s*[Ee](\d{1,2})\b`
(line 78), at the current position; returns (season, episode). -/
def matchP2Here (prev : Option Char) (rest : List Char) : Option (Nat × Nat) :=
  if !boundary prev rest then none
  else
    match rest with
    | c0 :: r0 =>
      if c0 == 'S' || c0 == 's' then
        match r0 with
        | c1 :: t1 =>
          if !c1.isDigit then none
          else
            let two : Option (Nat × Nat) :=
              match t1 with
              | c2 :: t2 =>
                if c2.isDigit then (p2Cont t2).map (fun e => (digitVal c1 * 10 + digitVal c2, e))
                else none
              | [] => none
            match two with
            | some r => some r
            | none => (p2Cont t1).map (fun e => (digitVal c1, e))
        | [] => none
      else none
    | [] => none

/-- Leftmost-match search (`re.Pattern.search`): try the anchored match
at every position, left to right, carrying the previous character for
the `\b` tests. -/
def searchAux (m : Option Char → List Char → Option (Nat × Nat)) :
    Option Char → List Char → Option (Nat × Nat)
  | prev, [] => m prev []
  | prev, c :: t =>
    match m prev (c :: t) with
    | some r => some r
    | none => searchAux m (some c) t

/-- `EP_PATTERNS[0].search` (line 76). -/
def searchP1 (s : List Char) : Option (Nat × Nat) := searchAux matchP1Here none s

/-- `EP_PATTERNS[1].search` (line 78). -/
def searchP2 (s : List Char) : Option (Nat × Nat) := searchAux matchP2Here none s

/-- The normalization `f"{season}x{ep:02d}"` of line 87. -/
def fmtEpisode (season ep : Nat) : String :=
  toString season ++ "x" ++ (if ep < 10 then "0" ++ toString ep else toString ep)

/-- Translation of `extract_episode_code` (lines 81–88): try the two
patterns in order, normalize the first match, else `None`. -/
def extract_episode_code (title : String) : Option String :=
  match searchP1 title.data with
  | some (se, ep) => some (fmtEpisode se ep)
  | none =>
    match searchP2 title.data with
    | some (se, ep) => some (fmtEpisode se ep)
    | none => none

/-- The environment-derived configuration consumed by the tracker
(lines 17–23); only the parts relevant to classification are kept. -/
structure Config where
  QUERY : String
  SUBREDDIT : String
  deriving Repr, DecidableEq

/-- The per-title classification step of `fetch_search_posts`
(lines 181–182), under an ambient configuration: it calls
`extract_episode_code` and `is_official_trailer`, neither of which reads
the configuration. -/
def classify_title (_cfg : Config) (title : String) : Option String × Bool :=
  (extract_episode_code title, is_official_trailer title)

/-- The `Post` dataclass (lines 98–111). -/
structure Post where
  id : String
  name : String
  created_utc : Int
  created_iso : String
  title : String
  permalink : String
  url : String
  author : String
  score : Int
  num_comments : Int
  episode_code : Option String
  is_trailer : Bool
  deriving Repr, DecidableEq

/-- Python truthiness of an `Optional[str]`: `None` and `""` are falsy.
Used for the `if p.episode_code` / `if not p.episode_code` filters. -/
def pyTruthyStrOpt : Option String → Bool
  | none => false
  | some s => !(s == "")

/-- Stable insertion of `x` into `l`: `x` goes after every element that
must come strictly before it and before everything else, so equal keys
keep input order. -/
def insBefore (lt : α → α → Bool) (x : α) : List α → List α
  | [] => [x]
  | y :: ys => if lt y x then y :: insBefore lt x ys else x :: y :: ys

/-- Stable sort; extensionally equal to CPython's stable `sorted` for a
comparator `lt` derived from a sort key (with `reverse=True` modelled by
the reversed key order). -/
def stableSort (lt : α → α → Bool) : List α → List α
  | [] => []
  | x :: xs => insBefore lt x (stableSort lt xs)

/-- The first element no later element strictly beats: for a
"strictly greater" comparator this is the first occurrence of the
maximum, for "strictly smaller" the first occurrence of the minimum. -/
def firstBest (lt : α → α → Bool) : List α → Option α
  | [] => none
  | x :: xs =>
    match firstBest lt xs with
    | none => some x
    | some y => some (if lt y x then y else x)

/-- Descending comparator on `num_comments`: the key of `pick_trailer`'s
`sorted(..., key=lambda p: p.num_comments, reverse=True)`. -/
def numGt (a b : Post) : Bool := decide (b.num_comments < a.num_comments)

/-- Translation of `pick_trailer` (lines 245–250). -/
def pick_trailer (posts : List Post) : Option Post :=
  let trailers := posts.filter (fun p => p.is_trailer)
  if trailers.isEmpty then none
  else (stableSort numGt trailers).head?

/-- Descending lexicographic comparator on `(num_comments, score)`: the
key of `pick_other_posts`'s sort. -/
def otherKeyGt (a b : Post) : Bool :=
  decide (b.num_comments < a.num_comments) ||
    (a.num_comments == b.num_comments && decide (b.score < a.score))

/-- Translation of `pick_other_posts` (lines 252–257). -/
def pick_other_posts (posts : List Post) (n : Nat) : List Post :=
  let candidates := posts.filter (fun p => !pyTruthyStrOpt p.episode_code && !p.is_trailer)
  (stableSort otherKeyGt candidates).take n

/-- Ascending lexicographic comparator on `(episode_code, created_utc)`
(every sorted post has a non-empty code, compared as a string). -/
def epSortLt (a b : Post) : Bool :=
  decide ((a.episode_code.getD "") < (b.episode_code.getD "")) ||
    ((a.episode_code.getD "" : String) == (b.episode_code.getD "") &&
      decide (a.created_utc < b.created_utc))

/-- Translation of `episode_posts` (lines 259–263). -/
def episode_posts (posts : List Post) : List Post :=
  stableSort epSortLt (posts.filter (fun p => pyTruthyStrOpt p.episode_code))

/-- One scripted HTTP response, as `request_json` observes it: status
code, the `Retry-After` header, the `Content-Type` header, and the
decoded JSON body of a successful response. -/
structure HttpResponse where
  status : Nat
  retryAfter : Option String
  contentType : Option String
  body : String
  deriving Repr, DecidableEq

/-- Outcome of `request_json`: the parsed body, a raised `HTTPError`, a
content-type mismatch `ValueError`, or the final `RuntimeError` after
all retries. -/
inductive FetchOutcome where
  | ok (body : String)
  | httpError (status : Nat)
  | protocolError (contentType : String)
  | exhausted
  deriving Repr, DecidableEq

/-- The value of a non-empty decimal digit string, as Python `int` reads
it. -/
def natFromDigits (l : List Char) : Nat := l.foldl (fun acc c => acc * 10 + digitVal c) 0

/-- The backoff wait chosen on a 429 (line 122): the `Retry-After`
header if present, non-empty and all digits (`str.isdigit`), else
`min(60, 2**attempt)`. -/
def retryWait (attempt : Nat) (retryAfter : Option String) : Nat :=
  match retryAfter with
  | some ra =>
    if !ra.data.isEmpty && ra.data.all Char.isDigit then natFromDigits ra.data
    else min 60 (2 ^ attempt)
  | none => min 60 (2 ^ attempt)

/-- The retry loop of `request_json` (lines 118–141), one step per
attempt; the network is modelled as a map from attempt number to the
response observed on that attempt.  Returns the outcome and the list of
sleeps performed, in order. -/
def requestGo (responses : Nat → HttpResponse) (attempt : Nat) : Nat → FetchOutcome × List Nat
  | 0 => (.exhausted, [])
  | fuel + 1 =>
    let r := responses attempt
    if r.status == 429 then
      let w := retryWait attempt r.retryAfter
      let rest := requestGo responses (attempt + 1) fuel
      (rest.1, w :: rest.2)
    else if 500 ≤ r.status && r.status < 600 then
      let w := min 60 (2 ^ attempt)
      let rest := requestGo responses (attempt + 1) fuel
      (rest.1, w :: rest.2)
    else if 400 ≤ r.status && r.status < 600 then (.httpError r.status, [])
    else
      let ct := pyLower (r.contentType.getD "")
      if pyIn "json" ct then (.ok r.body, []) else (.protocolError ct, [])

/-- Translation of `request_json` (lines 116–141): attempts are numbered
`1 .. max_retries` as in `range(1, max_retries + 1)`. -/
def request_json (responses : Nat → HttpResponse) (max_retries : Nat) : FetchOutcome × List Nat :=
  requestGo responses 1 max_retries

/-- One row of the history CSV, every field a string as `csv.DictReader`
yields it (header at lines 216–219). -/
structure HistoryRow where
  snapshot_utc : String
  post_id : String
  post_name : String
  episode_code : String
  is_episode : String
  is_trailer : String
  title : String
  permalink : String
  num_comments : String
  deriving Repr, DecidableEq

/-- Model of Python `int()` on a string: an optional sign followed by at
least one decimal digit; anything else raises (here: `none`). -/
def pyInt? (s : String) : Option Int :=
  match s.data with
  | '-' :: t =>
    if !t.isEmpty && t.all Char.isDigit then some (-(natFromDigits t : Int)) else none
  | '+' :: t =>
    if !t.isEmpty && t.all Char.isDigit then some ((natFromDigits t : Int)) else none
  | l =>
    if !l.isEmpty && l.all Char.isDigit then some ((natFromDigits l : Int)) else none

/-- Translation of `safe_int` (lines 65–69) on the string fields read
back from the CSV. -/
def safe_int (s : String) (default : Int) : Int :=
  match pyInt? s with
  | some v => v
  | none => default

/-- The entries `(dt, num_comments, row)` that `make_plots` accumulates
into `by_post[name]` (lines 290–297), in file order: rows whose
`snapshot_utc` the time parser rejects are dropped, the rest are grouped
by `post_name`.  `parse` models the standard-library
`datetime.fromisoformat` wrapped in `parse_dt`. -/
def groupRows {T : Type} (parse : String → Option T) (rows : List HistoryRow)
    (name : String) : List (T × Int × HistoryRow) :=
  rows.filterMap (fun row =>
    match parse row.snapshot_utc with
    | none => none
    | some t => if row.post_name == name then some (t, safe_int row.num_comments 0, row) else none)

/-- Ascending comparator on the snapshot time, the key of
`by_post[k].sort(key=lambda x: x[0])` (line 301). -/
def timeLt {T : Type} [LinearOrder T] (a b : T × Int × HistoryRow) : Bool :=
  decide (a.1 < b.1)

/-- The per-post series as `make_plots` builds it: the group of valid
rows for `name`, stably sorted by snapshot time. -/
def seriesFor {T : Type} [LinearOrder T] (parse : String → Option T)
    (rows : List HistoryRow) (name : String) : List (T × Int × HistoryRow) :=
  stableSort timeLt (groupRows parse rows name)

/-- The partition decision of `make_plots` (lines 308 and 334):
`none` when the group has no valid rows (the name never enters
`by_post`), otherwise whether the first row of the time-sorted series
has `is_episode == "1"`. -/
def classifyGroup {T : Type} [LinearOrder T] (parse : String → Option T)
    (rows : List HistoryRow) (name : String) : Option Bool :=
  match seriesFor parse rows name with
  | [] => none
  | e :: _ => some (e.2.2.is_episode == "1")

/-- The first row of a group in file order (what the specification calls
"the group's first row in file order"). -/
def firstFileRow {T : Type} (parse : String → Option T) (rows : List HistoryRow)
    (name : String) : Option HistoryRow :=
  ((groupRows parse rows name).head?).map (fun e => e.2.2)

/-- A concrete time parser for concrete inputs: the restriction of
`datetime.fromisoformat` to three fixed ISO-8601 timestamps, mapped to
their chronological ranks. -/
def demoParse : String → Option Nat := fun s =>
  if s == "2024-01-01T00:00:00+00:00" then some 0
  else if s == "2024-01-02T00:00:00+00:00" then some 1
  else if s == "2024-01-03T00:00:00+00:00" then some 2
  else none

/-- Helper building a concrete `Post` with the fields the selectors
read. -/
def mkPost (id : String) (nc score : Int) (code : Option String) (tr : Bool) : Post :=
  ⟨id, "t3_" ++ id, 0, "", "title " ++ id, "", "", "", score, nc, code, tr⟩

/-- Concrete posts used to instantiate the selector theorems. -/
def demoOtherSmall : Post := mkPost "a" 10 2 none false

/-- A second concrete non-episode, non-trailer post. -/
def demoOtherBig : Post := mkPost "b" 10 5 none false

/-- A concrete episode post with the highest comment count. -/
def demoEpisodePost : Post := mkPost "c" 100 50 (some "1x02") false

/-- A concrete trailer post. -/
def demoTrailerPost : Post := mkPost "d" 90 40 none true

/-- A concrete post list holding an episode post, a trailer and two
tied "other" posts. -/
def demoPosts3 : List Post := [demoEpisodePost, demoTrailerPost, demoOtherSmall, demoOtherBig]

/-- A concrete post list whose only trailer is `demoTrailerPost`. -/
def demoPosts6 : List Post := [demoOtherBig, demoTrailerPost]

/-- Helper building a concrete history row. -/
def mkRow (time name isEp : String) : HistoryRow :=
  ⟨time, "id", name, "", isEp, "0", "title", "link", "5"⟩

/-- First demo timestamp (rank 0 under `demoParse`). -/
def day1 : String := "2024-01-01T00:00:00+00:00"

/-- Second demo timestamp (rank 1 under `demoParse`). -/
def day2 : String := "2024-01-02T00:00:00+00:00"

/-- Third demo timestamp (rank 2 under `demoParse`). -/
def day3 : String := "2024-01-03T00:00:00+00:00"

/-- History rows for one post appended out of time order (T2, T1, T3),
plus a row with an unparsable timestamp. -/
def demoC5Rows : List HistoryRow :=
  [mkRow day2 "t3_abc" "0", mkRow day1 "t3_abc" "0", mkRow day3 "t3_abc" "0",
   mkRow "not-a-time" "t3_abc" "0"]

/-- History rows for one post where the first row in file order carries
`is_episode = "1"` but a later row has an earlier snapshot time and
`is_episode = "0"`. -/
def demoC4Rows : List HistoryRow :=
  [mkRow day2 "t3_abc" "1", mkRow day1 "t3_abc" "0"]

/-- A scripted network: three 429 responses (with a numeric, a missing
and a non-numeric `Retry-After`) followed by a JSON 200. -/
def demoResp : Nat → HttpResponse := fun n =>
  match n with
  | 1 => ⟨429, some "7", none, ""⟩
  | 2 => ⟨429, none, none, ""⟩
  | 3 => ⟨429, some "abc", none, ""⟩
  | _ => ⟨200, none, some "application/json; charset=utf-8", "BODY"⟩

/-- Lexicographic code-point comparison of strings: the order both
Python's `<` on `str` and Lean's `<` on `String` implement. -/
def codeLt (a b : String) : Prop := List.Lex (fun c d : Char => c < d) a.data b.data

/-- `codeLt` is decidable, so concrete comparisons evaluate. -/
instance codeLtDec (a b : String) : Decidable (codeLt a b) := by
  unfold codeLt
  infer_instance

/-! Generic lemmas about the stable sort and the first-best element. -/

theorem insBefore_perm (lt : α → α → Bool) (x : α) (l : List α) :
    List.Perm (insBefore lt x l) (x :: l) := by
  induction l with
  | nil => simp [insBefore]
  | cons y ys ih =>
    by_cases h : lt y x = true
    · simpa [insBefore, h] using ((ih.cons y).trans (List.Perm.swap x y ys))
    · simp [insBefore, h]

theorem stableSort_perm (lt : α → α → Bool) (l : List α) :
    List.Perm (stableSort lt l) l := by
  induction l with
  | nil => simp [stableSort]
  | cons x xs ih => exact (insBefore_perm lt x (stableSort lt xs)).trans (ih.cons x)

theorem head?_insBefore (lt : α → α → Bool) (x : α) (l : List α) :
    (insBefore lt x l).head? =
      some (match l.head? with | none => x | some y => if lt y x then y else x) := by
  cases l with
  | nil => simp [insBefore]
  | cons y ys => by_cases h : lt y x = true <;> simp [insBefore, h]

theorem head?_stableSort (lt : α → α → Bool) (l : List α) :
    (stableSort lt l).head? = firstBest lt l := by
  induction l with
  | nil => simp [stableSort, firstBest]
  | cons x xs ih =>
    rw [stableSort, head?_insBefore, firstBest, ← ih]
    cases (stableSort lt xs).head? <;> simp

theorem firstBest_eq_none_iff (lt : α → α → Bool) (l : List α) :
    firstBest lt l = none ↔ l = [] := by
  cases l with
  | nil => simp [firstBest]
  | cons x xs =>
    simp only [firstBest]
    cases firstBest lt xs <;> simp

theorem firstBest_split (lt : α → α → Bool)
    (hA : ∀ a b, lt a b = true → lt b a = false)
    (hL : ∀ a b c, lt a c = true → lt a b = true ∨ lt b c = true)
    (l : List α) (p : α) (h : firstBest lt l = some p) :
    ∃ l1 l2, l = l1 ++ p :: l2 ∧ (∀ q ∈ l1, lt p q = true) ∧ (∀ q ∈ l2, lt q p = false) := by
  induction l generalizing p with
  | nil => simp [firstBest] at h
  | cons x xs ih =>
    rw [firstBest] at h
    cases hxs : firstBest lt xs with
    | none =>
      rw [hxs] at h
      have hx : p = x := by simpa using h.symm
      have : xs = [] := (firstBest_eq_none_iff lt xs).mp hxs
      subst this; subst hx
      exact ⟨[], [], by simp⟩
    | some y =>
      rw [hxs] at h
      by_cases hyx : lt y x = true
      · have hp : p = y := by simpa [hyx] using h.symm
        subst hp
        obtain ⟨l1, l2, hsplit, h1, h2⟩ := ih _ hxs
        exact ⟨x :: l1, l2, by simp [hsplit], by
          intro q hq
          rcases List.mem_cons.mp hq with rfl | hq
          · exact hyx
          · exact h1 q hq, h2⟩
      · have hyx2 : lt y x = false := by simpa using hyx
        have hp : p = x := by simpa [hyx2] using h.symm
        obtain ⟨m1, m2, hsplit, h1, h2⟩ := ih _ hxs
        refine ⟨[], xs, by simp [hp], by simp, ?_⟩
        intro q hq
        rw [hp]
        subst hsplit
        rcases List.mem_append.mp hq with hq1 | hq2
        · by_contra hqp
          have hqx : lt q x = true := by simpa using hqp
          rcases hL q y x hqx with h3 | h3
          · have := hA y q (h1 q hq1)
            rw [this] at h3; exact Bool.noConfusion h3
          · rw [hyx2] at h3; exact Bool.noConfusion h3
        · rcases List.mem_cons.mp hq2 with rfl | hq3
          · exact hyx2
          · by_contra hqp
            have hqx : lt q x = true := by simpa using hqp
            rcases hL q y x hqx with h3 | h3
            · have := h2 q hq3
              rw [this] at h3; exact Bool.noConfusion h3
            · rw [hyx2] at h3; exact Bool.noConfusion h3

theorem pairwise_insBefore (lt : α → α → Bool)
    (hA : ∀ a b, lt a b = true → lt b a = false)
    (hT : ∀ a b c, lt b a = false → lt c b = false → lt c a = false)
    (x : α) (l : List α) (h : List.Pairwise (fun a b => lt b a = false) l) :
    List.Pairwise (fun a b => lt b a = false) (insBefore lt x l) := by
  induction l with
  | nil => simp [insBefore]
  | cons y ys ih =>
    rcases List.pairwise_cons.mp h with ⟨hy, hys⟩
    by_cases hyx : lt y x = true
    · rw [insBefore, if_pos hyx]
      refine List.pairwise_cons.mpr ⟨?_, ih hys⟩
      intro z hz
      have hz2 : z ∈ x :: ys := (insBefore_perm lt x ys).mem_iff.mp hz
      rcases List.mem_cons.mp hz2 with rfl | hz3
      · exact hA y z hyx
      · exact hy z hz3
    · have hyx2 : lt y x = false := by simpa using hyx
      rw [insBefore, if_neg (by simp [hyx2])]
      refine List.pairwise_cons.mpr ⟨?_, h⟩
      intro z hz
      rcases List.mem_cons.mp hz with rfl | hz2
      · exact hyx2
      · exact hT x y z hyx2 (hy z hz2)

theorem pairwise_stableSort (lt : α → α → Bool)
    (hA : ∀ a b, lt a b = true → lt b a = false)
    (hT : ∀ a b c, lt b a = false → lt c b = false → lt c a = false)
    (l : List α) :
    List.Pairwise (fun a b => lt b a = false) (stableSort lt l) := by
  induction l with
  | nil => simp [stableSort]
  | cons x xs ih => exact pairwise_insBefore lt hA hT x (stableSort lt xs) ih

/-! Comparator facts used to instantiate the generic sort lemmas. -/

theorem numGt_asymm (a b : Post) : numGt a b = true → numGt b a = false := by
  simp only [numGt, decide_eq_true_eq, decide_eq_false_iff_not]
  omega

theorem numGt_linear (a b c : Post) :
    numGt a c = true → numGt a b = true ∨ numGt b c = true := by
  simp only [numGt, decide_eq_true_eq]
  omega

theorem otherKeyGt_asymm (a b : Post) : otherKeyGt a b = true → otherKeyGt b a = false := by
  simp only [otherKeyGt, Bool.or_eq_true, Bool.and_eq_true, beq_iff_eq,
    decide_eq_true_eq, Bool.or_eq_false_iff, Bool.and_eq_false_iff,
    decide_eq_false_iff_not, beq_eq_false_iff_ne, ne_eq]
  omega

theorem otherKeyGt_negTrans (a b c : Post) :
    otherKeyGt b a = false → otherKeyGt c b = false → otherKeyGt c a = false := by
  simp only [otherKeyGt, Bool.or_eq_false_iff, Bool.and_eq_false_iff,
    decide_eq_false_iff_not, beq_eq_false_iff_ne, ne_eq]
  omega

theorem timeLt_asymm {T : Type} [LinearOrder T] (a b : T × Int × HistoryRow) :
    timeLt a b = true → timeLt b a = false := by
  simp only [timeLt, decide_eq_true_eq, decide_eq_false_iff_not]
  exact fun h => lt_asymm h

theorem timeLt_negTrans {T : Type} [LinearOrder T] (a b c : T × Int × HistoryRow) :
    timeLt b a = false → timeLt c b = false → timeLt c a = false := by
  simp only [timeLt, decide_eq_false_iff_not, not_lt]
  exact fun h1 h2 => le_trans h1 h2

theorem timeLt_linear {T : Type} [LinearOrder T] (a b c : T × Int × HistoryRow) :
    timeLt a c = true → timeLt a b = true ∨ timeLt b c = true := by
  simp only [timeLt, decide_eq_true_eq]
  intro h
  rcases le_or_lt b.1 a.1 with h2 | h2
  · exact Or.inr (lt_of_le_of_lt h2 h)
  · exact Or.inl h2

/-- C2: the title "Heated Rivalry — Official Trailer" still contains the
topic phrase "heated rivalry" as a substring once lowercased, so
`is_official_trailer` returns `true` on it — the claimed `false` is
wrong. -/
theorem trailer_flag_emdash_title_true :
    is_official_trailer "Heated Rivalry — Official Trailer" = true := by decide

/-- C2 (amended): `classify` returns trailer flag `true` for
"Heated Rivalry — Official Trailer" (the em-dash does not remove the
topic phrase, which is present as a substring), and `true` for
"Heated Rivalry Official Trailer", whose topic phrase is present as a
substring, case-insensitively. -/
theorem trailer_flag_on_both_example_titles :
    is_official_trailer "Heated Rivalry — Official Trailer" = true ∧
      is_official_trailer "Heated Rivalry Official Trailer" = true := by
  exact ⟨by decide, by decide⟩

/-- C9: the trailer flag is `true` exactly when the three
case-insensitive substring tests — "trailer", "official" and the topic
phrase "heated rivalry" — all hold on the title. -/
theorem trailer_flag_iff_three_substrings (title : String) :
    is_official_trailer title = true ↔
      (containsCI title "trailer" = true ∧ containsCI title "official" = true ∧
        containsCI title "heated rivalry" = true) := by
  have h1 : pyLower "trailer" = "trailer" := by decide
  have h2 : pyLower "official" = "official" := by decide
  have h3 : pyLower "heated rivalry" = "heated rivalry" := by decide
  simp [is_official_trailer, containsCI, h1, h2, h3, Bool.and_eq_true, and_assoc]

/-- C10: classification reads none of the environment configuration:
two runs differing only in `QUERY` (or any other configuration field)
classify every title identically, and the trailer test is the fixed
conjunction over "trailer", "official" and the literal phrase
"heated rivalry", not over the configured query. -/
theorem classification_query_independent (c1 c2 : Config) (title : String) :
    classify_title c1 title = classify_title c2 title ∧
      (classify_title c1 title).2 = is_official_trailer title ∧
      is_official_trailer title =
        (pyIn "trailer" (pyLower title) && pyIn "official" (pyLower title) &&
          pyIn "heated rivalry" (pyLower title)) :=
  ⟨rfl, rfl, rfl⟩

/-- C6: `pick_trailer` returns `none` exactly when no post has the
trailer flag; on a single trailer it returns that post regardless of
comment count; in general it returns the first trailer (in input order)
achieving the maximum `num_comments` — every earlier trailer has
strictly fewer comments and every later one at most as many. -/
theorem pick_trailer_spec (posts : List Post) :
    (pick_trailer posts = none ↔ posts.filter (fun p => p.is_trailer) = []) ∧
    (∀ p, posts.filter (fun p => p.is_trailer) = [p] → pick_trailer posts = some p) ∧
    pick_trailer posts = firstBest numGt (posts.filter (fun p => p.is_trailer)) ∧
    (∀ p, pick_trailer posts = some p →
      p ∈ posts ∧ p.is_trailer = true ∧
        ∀ q ∈ posts, q.is_trailer = true → q.num_comments ≤ p.num_comments) ∧
    (∀ p, pick_trailer posts = some p →
      ∃ l1 l2, posts.filter (fun p => p.is_trailer) = l1 ++ p :: l2 ∧
        (∀ q ∈ l1, q.num_comments < p.num_comments) ∧
        (∀ q ∈ l2, q.num_comments ≤ p.num_comments)) := by
  have hmain : pick_trailer posts = firstBest numGt (posts.filter (fun p => p.is_trailer)) := by
    rw [pick_trailer]
    by_cases h : (posts.filter (fun p => p.is_trailer)).isEmpty
    · rw [List.isEmpty_iff] at h
      simp [h, firstBest]
    · have h2 : (posts.filter (fun p => p.is_trailer)).isEmpty = false := by
        simpa [List.isEmpty_iff] using h
      simp [h2, head?_stableSort]
  have hsplit : ∀ p, pick_trailer posts = some p →
      ∃ l1 l2, posts.filter (fun p => p.is_trailer) = l1 ++ p :: l2 ∧
        (∀ q ∈ l1, q.num_comments < p.num_comments) ∧
        (∀ q ∈ l2, q.num_comments ≤ p.num_comments) := by
    intro p hp
    rw [hmain] at hp
    obtain ⟨l1, l2, he, h1, h2⟩ :=
      firstBest_split numGt numGt_asymm numGt_linear _ p hp
    refine ⟨l1, l2, he, ?_, ?_⟩
    · intro q hq
      have := h1 q hq
      simpa [numGt] using this
    · intro q hq
      have := h2 q hq
      simp only [numGt, decide_eq_false_iff_not, not_lt] at this
      exact this
  refine ⟨?_, ?_, hmain, ?_, hsplit⟩
  · rw [hmain]
    exact firstBest_eq_none_iff numGt _
  · intro p h
    rw [hmain, h]
    simp [firstBest]
  · intro p hp
    obtain ⟨l1, l2, he, h1, h2⟩ := hsplit p hp
    have hpmem : p ∈ posts.filter (fun p => p.is_trailer) := by
      rw [he]; exact List.mem_append_right _ (List.mem_cons_self p l2)
    rcases List.mem_filter.mp hpmem with ⟨hpin, hptr⟩
    refine ⟨hpin, hptr, ?_⟩
    intro q hqin hqtr
    have hqmem : q ∈ posts.filter (fun p => p.is_trailer) :=
      List.mem_filter.mpr ⟨hqin, hqtr⟩
    rw [he] at hqmem
    rcases List.mem_append.mp hqmem with hq1 | hq2
    · exact le_of_lt (h1 q hq1)
    · rcases List.mem_cons.mp hq2 with rfl | hq3
      · exact le_refl _
      · exact h2 q hq3

/-- C6 witness: on a list whose only trailer is `demoTrailerPost`, the
singleton clause of `pick_trailer_spec` returns exactly that post. -/
theorem pick_trailer_spec_witness :
    pick_trailer demoPosts6 = some demoTrailerPost :=
  (pick_trailer_spec demoPosts6).2.1 demoTrailerPost (by decide)

/-- C3: `pick_other_posts` returns only posts with no episode code and
no trailer flag, in descending lexicographic `(num_comments, score)`
order, truncated to the first `n`; when fewer than `n` posts qualify it
returns exactly the qualifying posts; and no post of the episode view
ever appears in its output. -/
theorem pick_other_posts_spec (posts : List Post) (n : Nat) :
    (∀ p ∈ pick_other_posts posts n,
      pyTruthyStrOpt p.episode_code = false ∧ p.is_trailer = false) ∧
    List.Pairwise
      (fun a b => b.num_comments < a.num_comments ∨
        (b.num_comments = a.num_comments ∧ b.score ≤ a.score))
      (pick_other_posts posts n) ∧
    (pick_other_posts posts n).length =
      min n (posts.filter (fun p => !pyTruthyStrOpt p.episode_code && !p.is_trailer)).length ∧
    ((posts.filter (fun p => !pyTruthyStrOpt p.episode_code && !p.is_trailer)).length ≤ n →
      List.Perm (pick_other_posts posts n)
        (posts.filter (fun p => !pyTruthyStrOpt p.episode_code && !p.is_trailer))) ∧
    (∀ p ∈ episode_posts posts, p ∉ pick_other_posts posts n) := by
  have hunf : pick_other_posts posts n =
      (stableSort otherKeyGt
        (posts.filter (fun p => !pyTruthyStrOpt p.episode_code && !p.is_trailer))).take n := rfl
  have hperm : List.Perm
      (stableSort otherKeyGt
        (posts.filter (fun p => !pyTruthyStrOpt p.episode_code && !p.is_trailer)))
      (posts.filter (fun p => !pyTruthyStrOpt p.episode_code && !p.is_trailer)) :=
    stableSort_perm _ _
  have hmem : ∀ p ∈ pick_other_posts posts n,
      pyTruthyStrOpt p.episode_code = false ∧ p.is_trailer = false := by
    intro p hp
    rw [hunf] at hp
    have h1 : p ∈ posts.filter (fun p => !pyTruthyStrOpt p.episode_code && !p.is_trailer) :=
      hperm.mem_iff.mp (List.mem_of_mem_take hp)
    rcases List.mem_filter.mp h1 with ⟨_, hcond⟩
    simpa using hcond
  refine ⟨hmem, ?_, ?_, ?_, ?_⟩
  · have hpw := pairwise_stableSort otherKeyGt otherKeyGt_asymm otherKeyGt_negTrans
      (posts.filter (fun p => !pyTruthyStrOpt p.episode_code && !p.is_trailer))
    have hpw2 := hpw.sublist (List.take_sublist n _)
    rw [← hunf] at hpw2
    refine hpw2.imp ?_
    intro a b h
    revert h
    simp only [otherKeyGt, Bool.or_eq_false_iff, Bool.and_eq_false_iff,
      decide_eq_false_iff_not, beq_eq_false_iff_ne, ne_eq]
    omega
  · rw [hunf, List.length_take, hperm.length_eq]
  · intro hle
    rw [hunf, List.take_of_length_le (by rw [hperm.length_eq]; exact hle)]
    exact hperm
  · intro p hp hmem2
    have h1 : p ∈ posts.filter (fun p => pyTruthyStrOpt p.episode_code) :=
      (stableSort_perm epSortLt _).mem_iff.mp hp
    rcases List.mem_filter.mp h1 with ⟨_, hcond⟩
    have := (hmem p hmem2).1
    rw [this] at hcond
    exact Bool.noConfusion hcond

/-- C3 witness: in a list holding an episode post and a trailer with
the highest comment counts, the selected post `demoOtherBig` has
neither flag, and with only two qualifying posts the output is a
permutation of exactly those. -/
theorem pick_other_posts_spec_witness :
    (pyTruthyStrOpt demoOtherBig.episode_code = false ∧ demoOtherBig.is_trailer = false) ∧
    List.Perm (pick_other_posts demoPosts3 3)
      (demoPosts3.filter (fun p => !pyTruthyStrOpt p.episode_code && !p.is_trailer)) :=
  ⟨(pick_other_posts_spec demoPosts3 3).1 demoOtherBig (by decide),
   (pick_other_posts_spec demoPosts3 3).2.2.2.1 (by decide)⟩

/-- C8: episode detection tries the `<season>x<episode>` pattern first
and the `S<season>E<episode>` pattern second; the first pattern to match
wins (even when both match), the winning match is normalized by
`fmtEpisode` (season as-is, episode zero-padded to two digits), and when
neither matches the episode identifier is absent. -/
theorem extract_episode_code_pattern_priority (title : String) :
    (∀ s e, searchP1 title.data = some (s, e) →
      extract_episode_code title = some (fmtEpisode s e)) ∧
    (searchP1 title.data = none → ∀ s e, searchP2 title.data = some (s, e) →
      extract_episode_code title = some (fmtEpisode s e)) ∧
    (searchP1 title.data = none → searchP2 title.data = none →
      extract_episode_code title = none) := by
  refine ⟨?_, ?_, ?_⟩
  · intro s e h
    simp [extract_episode_code, h]
  · intro h1 s e h2
    simp [extract_episode_code, h1, h2]
  · intro h1 h2
    simp [extract_episode_code, h1, h2]

/-- C8 witness: on "S1E2 3x4" both patterns match, and the `3x4` form
wins and is normalized to "3x04". -/
theorem extract_episode_code_pattern_priority_witness :
    searchP2 ("S1E2 3x4").data = some (1, 2) ∧
    extract_episode_code "S1E2 3x4" = some (fmtEpisode 3 4) :=
  ⟨by decide, (extract_episode_code_pattern_priority "S1E2 3x4").1 3 4 (by decide)⟩

/-- The rows that survive grouping for a name are exactly the file-order
rows with that `post_name` whose snapshot time parses. -/
theorem groupRows_map_eq {T : Type} (parse : String → Option T)
    (rows : List HistoryRow) (name : String) :
    (groupRows parse rows name).map (fun e => e.2.2) =
      rows.filter (fun row => (parse row.snapshot_utc).isSome && row.post_name == name) := by
  induction rows with
  | nil => rfl
  | cons r rs ih =>
    simp only [groupRows, List.filterMap_cons, List.filter_cons] at ih ⊢
    cases hp : parse r.snapshot_utc with
    | none => simpa [hp] using ih
    | some t =>
      by_cases hn : (r.post_name == name) = true
      · simpa [hp, hn] using ih
      · simpa [hp, hn] using ih

/-- C5: the series aggregator groups history rows by `post_name`,
silently drops rows with an unparsable snapshot time, and sorts every
group ascending by snapshot time regardless of file order; concretely,
rows appended in order (T2, T1, T3) plus an unparsable row yield the
series (T1, T2, T3). -/
theorem series_grouping_sorting_spec {T : Type} [LinearOrder T]
    (parse : String → Option T) (rows : List HistoryRow) (name : String) :
    List.Perm (seriesFor parse rows name) (groupRows parse rows name) ∧
    List.Sorted (fun a b : T × Int × HistoryRow => a.1 ≤ b.1) (seriesFor parse rows name) ∧
    (groupRows parse rows name).map (fun e => e.2.2) =
      rows.filter (fun row => (parse row.snapshot_utc).isSome && row.post_name == name) ∧
    (seriesFor demoParse demoC5Rows "t3_abc").map (fun e => e.1) = [0, 1, 2] := by
  refine ⟨stableSort_perm _ _, ?_, groupRows_map_eq parse rows name, by decide⟩
  have hpw := pairwise_stableSort timeLt (fun a b => timeLt_asymm a b)
    (fun a b c => timeLt_negTrans a b c) (groupRows parse rows name)
  refine hpw.imp ?_
  intro a b h
  simp only [timeLt, decide_eq_false_iff_not, not_lt] at h
  exact h

/-- C4 counterexample: with the first file-order row of a group carrying
`is_episode = "1"` at time T2 and a later row carrying `"0"` at the
earlier time T1, `make_plots` classifies the group from the
time-earliest row (`"0"`, non-episode), not from the first row in file
order (`"1"`). -/
theorem partition_not_file_order_first_row :
    classifyGroup demoParse demoC4Rows "t3_abc" = some false ∧
    (firstFileRow demoParse demoC4Rows "t3_abc").map (fun r => r.is_episode == "1") =
      some true ∧
    classifyGroup demoParse demoC4Rows "t3_abc" ≠
      (firstFileRow demoParse demoC4Rows "t3_abc").map (fun r => r.is_episode == "1") :=
  ⟨by decide, by decide, by decide⟩

/-- C4 (amended): the partition decision uses the `is_episode` flag of
the first row of the group's time-sorted series — the row with the
earliest parsable snapshot time, ties broken by file order — not
re-evaluated per row; and a group with zero rows left after dropping
unparsable snapshot times appears in neither partition. -/
theorem partition_uses_time_sorted_first_row {T : Type} [LinearOrder T]
    (parse : String → Option T) (rows : List HistoryRow) (name : String) :
    classifyGroup parse rows name =
      (firstBest timeLt (groupRows parse rows name)).map
        (fun e => e.2.2.is_episode == "1") ∧
    (groupRows parse rows name = [] → classifyGroup parse rows name = none) ∧
    (∀ b, classifyGroup parse rows name = some b →
      ∃ r pre post, groupRows parse rows name = pre ++ r :: post ∧
        b = (r.2.2.is_episode == "1") ∧
        (∀ q ∈ pre, r.1 < q.1) ∧ (∀ q ∈ post, ¬ q.1 < r.1)) := by
  have hmain : classifyGroup parse rows name =
      (firstBest timeLt (groupRows parse rows name)).map
        (fun e => e.2.2.is_episode == "1") := by
    rw [← head?_stableSort]
    cases h : seriesFor parse rows name with
    | nil => simp [classifyGroup, h, seriesFor] at h ⊢; rw [h]; rfl
    | cons e t => simp [classifyGroup, h, seriesFor] at h ⊢; rw [h]; rfl
  refine ⟨hmain, ?_, ?_⟩
  · intro h
    rw [hmain, h]
    rfl
  · intro b hb
    rw [hmain] at hb
    cases hf : firstBest timeLt (groupRows parse rows name) with
    | none => rw [hf] at hb; exact Option.noConfusion hb
    | some r =>
      rw [hf] at hb
      obtain ⟨pre, post, hsplit, h1, h2⟩ :=
        firstBest_split timeLt (fun a b => timeLt_asymm a b)
          (fun a b c => timeLt_linear a b c) _ r hf
      refine ⟨r, pre, post, hsplit, by simpa using hb.symm, ?_, ?_⟩
      · intro q hq
        have := h1 q hq
        simpa [timeLt] using this
      · intro q hq
        have := h2 q hq
        simpa [timeLt] using this

/-- C4 witness: a name with no valid rows is classified into neither
partition. -/
theorem partition_uses_time_sorted_first_row_witness :
    classifyGroup demoParse demoC4Rows "t3_zzz" = none :=
  (partition_uses_time_sorted_first_row demoParse demoC4Rows "t3_zzz").2.1 (by decide)

/-- C7: three consecutive 429 responses followed by a JSON 200, with
five attempts available, yield the parsed body with exactly three
sleeps, each wait taken from `Retry-After` when present and numeric and
from `min(60, 2^attempt)` otherwise; and the same three 429s exhaust a
budget of exactly three attempts, showing each 429 consumes one
attempt. -/
theorem request_json_three_429_then_success (resp : Nat → HttpResponse)
    (h1 : (resp 1).status = 429) (h2 : (resp 2).status = 429) (h3 : (resp 3).status = 429)
    (h4 : (resp 4).status = 200)
    (hct : pyIn "json" (pyLower ((resp 4).contentType.getD "")) = true) :
    request_json resp 5 =
      (FetchOutcome.ok (resp 4).body,
        [retryWait 1 (resp 1).retryAfter, retryWait 2 (resp 2).retryAfter,
          retryWait 3 (resp 3).retryAfter]) ∧
    request_json resp 3 =
      (FetchOutcome.exhausted,
        [retryWait 1 (resp 1).retryAfter, retryWait 2 (resp 2).retryAfter,
          retryWait 3 (resp 3).retryAfter]) ∧
    (∀ i v ra, ra.data.all Char.isDigit = true → ra.data ≠ [] →
      natFromDigits ra.data = v → retryWait i (some ra) = v) ∧
    (∀ i, retryWait i none = min 60 (2 ^ i)) := by
  refine ⟨?_, ?_, ?_, ?_⟩
  · simp [request_json, requestGo, h1, h2, h3, h4, hct]
  · simp [request_json, requestGo, h1, h2, h3]
  · intro i v ra hdig hne hval
    simp [retryWait, hdig, hne, hval, List.isEmpty_iff]
  · intro i
    rfl

/-- C7 witness: on the scripted network (Retry-After "7", absent,
non-numeric "abc") the fetch succeeds on attempt 4 of 5 with sleeps
7, 4, 8, and a budget of 3 is exhausted by the three 429s. -/
theorem request_json_three_429_then_success_witness :
    request_json demoResp 5 = (FetchOutcome.ok "BODY", [7, 4, 8]) ∧
    request_json demoResp 3 = (FetchOutcome.exhausted, [7, 4, 8]) := by
  have h := request_json_three_429_then_success demoResp rfl rfl rfl rfl (by decide)
  exact ⟨by rw [h.1]; decide, by rw [h.2.1]; decide⟩

/-! Digit and lexicographic facts for the episode-code normalization. -/

theorem toString_data_lt10 : ∀ s < 10, (toString s).data = [Nat.digitChar s] := by decide

theorem toString_data_2digit :
    ∀ s < 100, 10 ≤ s →
      (toString s).data = [Nat.digitChar (s / 10), Nat.digitChar (s % 10)] := by decide

theorem digitChar_lt_iff :
    ∀ a < 10, ∀ b < 10, (Nat.digitChar a < Nat.digitChar b ↔ a < b) := by decide

theorem digitChar_eq_iff :
    ∀ a < 10, ∀ b < 10, (Nat.digitChar a = Nat.digitChar b ↔ a = b) := by decide

theorem lex_cons_iff (a b : Char) (l m : List Char) :
    List.Lex (fun c d : Char => c < d) (a :: l) (b :: m) ↔
      a < b ∨ (a = b ∧ List.Lex (fun c d : Char => c < d) l m) := by
  constructor
  · intro h
    cases h with
    | rel h => exact Or.inl h
    | cons h => exact Or.inr ⟨rfl, h⟩
  · intro h
    rcases h with h | ⟨rfl, h⟩
    · exact List.Lex.rel h
    · exact List.Lex.cons h

theorem fmtEpisode_data (s e : Nat) (he : e < 100) :
    (fmtEpisode s e).data =
      (toString s).data ++ 'x' :: [Nat.digitChar (e / 10), Nat.digitChar (e % 10)] := by
  rw [fmtEpisode]
  by_cases h : e < 10
  · have h10 : e / 10 = 0 := by omega
    have hm : e % 10 = e := by omega
    simp [h, String.data_append, h10, hm, toString_data_lt10 e h]
    rfl
  · have h1 : 10 ≤ e := by omega
    simp [h, String.data_append, toString_data_2digit e he h1]

theorem fmt_lt_iff_one_digit (s1 e1 s2 e2 : Nat)
    (hs1 : s1 < 10) (hs2 : s2 < 10) (he1 : e1 < 100) (he2 : e2 < 100) :
    (codeLt (fmtEpisode s1 e1) (fmtEpisode s2 e2) ↔ (s1 < s2 ∨ (s1 = s2 ∧ e1 < e2))) := by
  unfold codeLt
  rw [fmtEpisode_data s1 e1 he1, fmtEpisode_data s2 e2 he2,
    toString_data_lt10 s1 hs1, toString_data_lt10 s2 hs2]
  simp only [List.cons_append, List.nil_append, lex_cons_iff]
  rw [digitChar_lt_iff s1 hs1 s2 hs2, digitChar_eq_iff s1 hs1 s2 hs2,
    digitChar_lt_iff (e1 / 10) (by omega) (e2 / 10) (by omega),
    digitChar_eq_iff (e1 / 10) (by omega) (e2 / 10) (by omega),
    digitChar_lt_iff (e1 % 10) (by omega) (e2 % 10) (by omega),
    digitChar_eq_iff (e1 % 10) (by omega) (e2 % 10) (by omega)]
  simp only [lt_self_iff_false, List.Lex.not_nil_right, iff_false, false_or, and_false,
    or_false, true_and]
  omega

theorem fmt_lt_iff_two_digit (s1 e1 s2 e2 : Nat)
    (hs1a : 10 ≤ s1) (hs1 : s1 < 100) (hs2a : 10 ≤ s2) (hs2 : s2 < 100)
    (he1 : e1 < 100) (he2 : e2 < 100) :
    (codeLt (fmtEpisode s1 e1) (fmtEpisode s2 e2) ↔ (s1 < s2 ∨ (s1 = s2 ∧ e1 < e2))) := by
  unfold codeLt
  rw [fmtEpisode_data s1 e1 he1, fmtEpisode_data s2 e2 he2,
    toString_data_2digit s1 hs1 hs1a, toString_data_2digit s2 hs2 hs2a]
  simp only [List.cons_append, List.nil_append, lex_cons_iff]
  rw [digitChar_lt_iff (s1 / 10) (by omega) (s2 / 10) (by omega),
    digitChar_eq_iff (s1 / 10) (by omega) (s2 / 10) (by omega),
    digitChar_lt_iff (s1 % 10) (by omega) (s2 % 10) (by omega),
    digitChar_eq_iff (s1 % 10) (by omega) (s2 % 10) (by omega),
    digitChar_lt_iff (e1 / 10) (by omega) (e2 / 10) (by omega),
    digitChar_eq_iff (e1 / 10) (by omega) (e2 / 10) (by omega),
    digitChar_lt_iff (e1 % 10) (by omega) (e2 % 10) (by omega),
    digitChar_eq_iff (e1 % 10) (by omega) (e2 % 10) (by omega)]
  simp only [lt_self_iff_false, List.Lex.not_nil_right, iff_false, false_or, and_false,
    or_false, true_and]
  omega

theorem digitVal_le_nine (c : Char) (h : c.isDigit = true) : digitVal c ≤ 9 := by
  simp only [Char.isDigit, Bool.and_eq_true, decide_eq_true_eq, ge_iff_le,
    UInt32.le_def, BitVec.le_def] at h
  have h0 : digitVal c = c.val.toNat - 48 := rfl
  have h1 : c.val.toNat = c.val.toBitVec.toNat := rfl
  rw [h0, h1]
  simp at h
  omega

theorem epDigits_le (l : List Char) (e : Nat) (h : epDigits l = some e) : e ≤ 99 := by
  cases l with
  | nil => simp [epDigits] at h
  | cons c1 t =>
    cases t with
    | nil =>
      by_cases hd : c1.isDigit = true
      · simp [epDigits, hd] at h
        have := digitVal_le_nine c1 hd
        omega
      · simp [epDigits, hd] at h
    | cons c2 t2 =>
      by_cases hd1 : c1.isDigit = true
      · by_cases hd2 : (c2.isDigit && endBoundary t2) = true
        · simp [epDigits, hd1, hd2] at h
          rcases Bool.and_eq_true_iff.mp hd2 with ⟨hc2, _⟩
          have g1 := digitVal_le_nine c1 hd1
          have g2 := digitVal_le_nine c2 hc2
          omega
        · by_cases hd3 : (!c2.isDigit && endBoundary (c2 :: t2)) = true
          · simp [epDigits, hd1, hd2, hd3] at h
            have := digitVal_le_nine c1 hd1
            omega
          · simp [epDigits, hd1, hd2, hd3] at h
      · simp [epDigits, hd1] at h

theorem p1Cont_le (rest : List Char) (e : Nat) (h : p1Cont rest = some e) : e ≤ 99 := by
  unfold p1Cont at h
  cases hs : skipSpaces rest with
  | nil => rw [hs] at h; exact absurd h (by simp)
  | cons c t =>
    rw [hs] at h
    dsimp only at h
    by_cases hc : (c == 'x' || c == 'X') = true
    · rw [if_pos hc] at h
      exact epDigits_le _ _ h
    · rw [if_neg hc] at h
      exact absurd h (by simp)

theorem p2Cont_le (rest : List Char) (e : Nat) (h : p2Cont rest = some e) : e ≤ 99 := by
  unfold p2Cont at h
  cases hs : skipSpaces rest with
  | nil => rw [hs] at h; exact absurd h (by simp)
  | cons c t =>
    rw [hs] at h
    dsimp only at h
    by_cases hc : (c == 'E' || c == 'e') = true
    · rw [if_pos hc] at h
      exact epDigits_le _ _ h
    · rw [if_neg hc] at h
      exact absurd h (by simp)

theorem matchP1Here_bound (prev : Option Char) (rest : List Char) (s e : Nat)
    (h : matchP1Here prev rest = some (s, e)) : s ≤ 99 ∧ e ≤ 99 := by
  unfold matchP1Here at h
  by_cases hb : (!boundary prev rest) = true
  · rw [if_pos hb] at h; exact absurd h (by simp)
  · rw [if_neg hb] at h
    cases rest with
    | nil => exact absurd h (by simp)
    | cons c1 t1 =>
      dsimp only at h
      by_cases hd : (!c1.isDigit) = true
      · rw [if_pos hd] at h; exact absurd h (by simp)
      · rw [if_neg hd] at h
        have hd1 : c1.isDigit = true := by simpa using hd
        have g1 := digitVal_le_nine c1 hd1
        cases t1 with
        | nil =>
          dsimp only at h
          rcases Option.map_eq_some'.mp h with ⟨v, hv, hve⟩
          have hb2 := p1Cont_le _ _ hv
          injection hve with ha hbb
          constructor <;> omega
        | cons c2 t2 =>
          dsimp only at h
          by_cases hc2 : c2.isDigit = true
          · rw [if_pos hc2] at h
            cases hp : (p1Cont t2).map (fun e => (digitVal c1 * 10 + digitVal c2, e)) with
            | some r =>
              rw [hp] at h
              dsimp only at h
              rcases Option.map_eq_some'.mp hp with ⟨v, hv, hve⟩
              have hb2 := p1Cont_le _ _ hv
              have g2 := digitVal_le_nine c2 hc2
              injection h with hre
              rw [hre] at hve
              injection hve with ha hbb
              constructor <;> omega
            | none =>
              rw [hp] at h
              dsimp only at h
              rcases Option.map_eq_some'.mp h with ⟨v, hv, hve⟩
              have hb2 := p1Cont_le _ _ hv
              injection hve with ha hbb
              constructor <;> omega
          · rw [if_neg hc2] at h
            dsimp only at h
            rcases Option.map_eq_some'.mp h with ⟨v, hv, hve⟩
            have hb2 := p1Cont_le _ _ hv
            injection hve with ha hbb
            constructor <;> omega

theorem matchP2Here_bound (prev : Option Char) (rest : List Char) (s e : Nat)
    (h : matchP2Here prev rest = some (s, e)) : s ≤ 99 ∧ e ≤ 99 := by
  unfold matchP2Here at h
  by_cases hb : (!boundary prev rest) = true
  · rw [if_pos hb] at h; exact absurd h (by simp)
  · rw [if_neg hb] at h
    cases rest with
    | nil => exact absurd h (by simp)
    | cons c0 r0 =>
      dsimp only at h
      by_cases hs0 : (c0 == 'S' || c0 == 's') = true
      · rw [if_pos hs0] at h
        cases r0 with
        | nil => exact absurd h (by simp)
        | cons c1 t1 =>
          dsimp only at h
          by_cases hd : (!c1.isDigit) = true
          · rw [if_pos hd] at h; exact absurd h (by simp)
          · rw [if_neg hd] at h
            have hd1 : c1.isDigit = true := by simpa using hd
            have g1 := digitVal_le_nine c1 hd1
            cases t1 with
            | nil =>
              dsimp only at h
              rcases Option.map_eq_some'.mp h with ⟨v, hv, hve⟩
              have hb2 := p2Cont_le _ _ hv
              injection hve with ha hbb
              constructor <;> omega
            | cons c2 t2 =>
              dsimp only at h
              by_cases hc2 : c2.isDigit = true
              · rw [if_pos hc2] at h
                cases hp : (p2Cont t2).map (fun e => (digitVal c1 * 10 + digitVal c2, e)) with
                | some r =>
                  rw [hp] at h
                  dsimp only at h
                  rcases Option.map_eq_some'.mp hp with ⟨v, hv, hve⟩
                  have hb2 := p2Cont_le _ _ hv
                  have g2 := digitVal_le_nine c2 hc2
                  injection h with hre
                  rw [hre] at hve
                  injection hve with ha hbb
                  constructor <;> omega
                | none =>
                  rw [hp] at h
                  dsimp only at h
                  rcases Option.map_eq_some'.mp h with ⟨v, hv, hve⟩
                  have hb2 := p2Cont_le _ _ hv
                  injection hve with ha hbb
                  constructor <;> omega
              · rw [if_neg hc2] at h
                dsimp only at h
                rcases Option.map_eq_some'.mp h with ⟨v, hv, hve⟩
                have hb2 := p2Cont_le _ _ hv
                injection hve with ha hbb
                constructor <;> omega
      · rw [if_neg hs0] at h
        exact absurd h (by simp)

theorem searchAux_bound (m : Option Char → List Char → Option (Nat × Nat))
    (H : ∀ prev rest s e, m prev rest = some (s, e) → s ≤ 99 ∧ e ≤ 99) :
    ∀ prev l s e, searchAux m prev l = some (s, e) → s ≤ 99 ∧ e ≤ 99 := by
  intro prev l
  induction l generalizing prev with
  | nil =>
    intro s e h
    unfold searchAux at h
    exact H _ _ _ _ h
  | cons c t ih =>
    intro s e h
    unfold searchAux at h
    cases hm : m prev (c :: t) with
    | some r =>
      rw [hm] at h
      dsimp only at h
      injection h with hre
      rw [hre] at hm
      exact H _ _ _ _ hm
    | none =>
      rw [hm] at h
      dsimp only at h
      exact ih (some c) s e h

theorem extract_code_shape (title c : String) (h : extract_episode_code title = some c) :
    ∃ s e, s ≤ 99 ∧ e ≤ 99 ∧ c = fmtEpisode s e := by
  unfold extract_episode_code at h
  cases h1 : searchP1 title.data with
  | some r =>
    obtain ⟨se, ep⟩ := r
    rw [h1] at h
    dsimp only at h
    injection h with hc
    have hb := searchAux_bound matchP1Here matchP1Here_bound none title.data se ep h1
    exact ⟨se, ep, hb.1, hb.2, hc.symm⟩
  | none =>
    rw [h1] at h
    dsimp only at h
    cases h2 : searchP2 title.data with
    | some r =>
      obtain ⟨se, ep⟩ := r
      rw [h2] at h
      dsimp only at h
      injection h with hc
      have hb := searchAux_bound matchP2Here matchP2Here_bound none title.data se ep h2
      exact ⟨se, ep, hb.1, hb.2, hc.symm⟩
    | none =>
      rw [h2] at h
      exact absurd h (by simp)

/-- C1 counterexample: the codes produced for seasons 2 and 10 disagree
with numeric order under lexicographic comparison — numerically
(2, 1) < (10, 1), but the string "10x01" sorts before "2x01" because
seasons are not zero-padded. -/
theorem episode_code_lex_mismatch_cross_width :
    extract_episode_code "Heated Rivalry 2x1" = some "2x01" ∧
    extract_episode_code "Heated Rivalry 10x1" = some "10x01" ∧
    codeLt "10x01" "2x01" ∧ ¬ codeLt "2x01" "10x01" ∧
    (2 < 10 ∨ (2 = 10 ∧ (1 : Nat) < 1)) :=
  ⟨by decide, by decide, by decide, by decide, by decide⟩

/-- C1 (amended): every extracted episode code is rendered as the
season number, the letter 'x', and the episode number zero-padded to
two digits ("3x7" yields "3x07"), and for two codes so produced whose
seasons have the same decimal width (both 1–9 or both 10–99) with
episodes 0–99, lexicographic string comparison agrees with numeric
comparison of the (season, episode) pairs; with seasons of different
widths the two orders disagree. -/
theorem episode_code_rendering_and_lex :
    (∀ title c, extract_episode_code title = some c →
      ∃ s e, s ≤ 99 ∧ e ≤ 99 ∧ c = fmtEpisode s e) ∧
    extract_episode_code "3x7" = some "3x07" ∧
    (∀ s1 e1 s2 e2 : Nat, 1 ≤ s1 → s1 ≤ 99 → 1 ≤ s2 → s2 ≤ 99 → e1 ≤ 99 → e2 ≤ 99 →
      (s1 < 10 ↔ s2 < 10) →
      (codeLt (fmtEpisode s1 e1) (fmtEpisode s2 e2) ↔ (s1 < s2 ∨ (s1 = s2 ∧ e1 < e2)))) := by
  refine ⟨extract_code_shape, by decide, ?_⟩
  intro s1 e1 s2 e2 hs1a hs1b hs2a hs2b he1 he2 hw
  by_cases h : s1 < 10
  · exact fmt_lt_iff_one_digit s1 e1 s2 e2 h (hw.mp h) (by omega) (by omega)
  · have h2 : ¬ s2 < 10 := fun hh => h (hw.mpr hh)
    exact fmt_lt_iff_two_digit s1 e1 s2 e2 (by omega) (by omega) (by omega) (by omega)
      (by omega) (by omega)

/-- C1 witness: the code of season 3 episode 7 sorts before that of
season 3 episode 10 (zero-padding at work), and the extracted "3x07"
has the rendered shape. -/
theorem episode_code_rendering_and_lex_witness :
    codeLt (fmtEpisode 3 7) (fmtEpisode 3 10) ∧
    (∃ s e, s ≤ 99 ∧ e ≤ 99 ∧ "3x07" = fmtEpisode s e) :=
  ⟨(episode_code_rendering_and_lex.2.2 3 7 3 10 (by decide) (by decide) (by decide)
      (by decide) (by decide) (by decide) (by decide)).mpr (Or.inr ⟨rfl, by decide⟩),
    episode_code_rendering_and_lex.1 "3x7" "3x07" (by decide)⟩
